import Mathlib

/-!
Verification development for the SRRS resume-ranking pipeline.

The Python sources are shallowly embedded:
* Python strings are `List Char` where character-level operations matter
  (filenames), and `String` where the text is opaque (resume texts, HTTP
  bodies).
* External collaborators (the IMAP client, PyMuPDF text extraction, the
  HTTP transport, the JSON parser of the `json` module, and the
  sentence-transformer embedding model) are modelled as explicit
  environment parameters, following the spec's scoping of them as
  external.
* Exceptions are modelled with `Except`; `time.sleep` calls are recorded
  in an explicit trace of sleep durations.
-/

/-- Model of Python `str.lower` restricted to the ASCII letters, applied
per character.  Only the 26 ASCII uppercase letters are mapped; every
other character (in particular `.`) is fixed. -/
def pyLower (c : Char) : Char :=
  match c with
  | 'A' => 'a' | 'B' => 'b' | 'C' => 'c' | 'D' => 'd' | 'E' => 'e'
  | 'F' => 'f' | 'G' => 'g' | 'H' => 'h' | 'I' => 'i' | 'J' => 'j'
  | 'K' => 'k' | 'L' => 'l' | 'M' => 'm' | 'N' => 'n' | 'O' => 'o'
  | 'P' => 'p' | 'Q' => 'q' | 'R' => 'r' | 'S' => 's' | 'T' => 't'
  | 'U' => 'u' | 'V' => 'v' | 'W' => 'w' | 'X' => 'x' | 'Y' => 'y'
  | 'Z' => 'z'
  | _   => c

/-- Positions of the character `.` in a filename, in increasing order.
Helper for `splitext`. -/
def dotIdxs (l : List Char) : List Nat :=
  (List.range l.length).filter (fun i => l[i]? == some '.')

/-- Model of CPython `os.path.splitext` for a pure filename (no path
separators): the extension starts at the last dot, provided some
character strictly before that dot is not itself a dot (so leading-dot
names such as `.bashrc` have no extension). -/
def splitext (l : List Char) : List Char × List Char :=
  match (dotIdxs l).getLast? with
  | none => (l, [])
  | some k =>
    if (List.range k).any (fun j => !(l[j]? == some '.')) then
      (l.take k, l.drop k)
    else
      (l, [])

/-- The resume allow-list of `fetch_resumes.py` (`resume_extensions`). -/
def resume_extensions : List (List Char) :=
  [".pdf".toList, ".doc".toList, ".docx".toList, ".txt".toList, ".rtf".toList]

/-- Model of `is_resume_file` from `fetch_resumes.py`: empty filename is
rejected, otherwise the extension of the lowercased filename must be in
the allow-list. -/
def is_resume_file (filename : List Char) : Bool :=
  if filename.isEmpty then false
  else
    decide ((splitext (filename.map pyLower)).2 ∈ resume_extensions)

example : is_resume_file "Resume.PDF".toList = true := by decide
example : is_resume_file "cv.tar.gz".toList = false := by decide
example : is_resume_file ".pdf".toList = false := by decide
example : is_resume_file "notes".toList = false := by decide
example : splitext "a.tar.gz".toList = ("a.tar".toList, ".gz".toList) := by decide

/-- Candidate filename tried by `save_attachment`: candidate `0` is the
original filename; candidate `n` (for `n ≥ 1`) is
`f"{base_name}_{counter}{ext}"` with `counter = n`. -/
def candidateName (filename : List Char) (n : Nat) : List Char :=
  match n with
  | 0 => filename
  | Nat.succ _ =>
    (splitext filename).1 ++ ('_' :: (Nat.repr n).toList) ++ (splitext filename).2

/-- Fueled model of the `while os.path.exists(...)` loop of
`save_attachment`: starting from candidate index `n`, return the first
candidate name not already present in the folder.  The fuel bounds the
number of iterations modelled; the Python loop is unbounded but stops for
the same reason the fuel below suffices (a folder holds finitely many
names). -/
def findUniqueName (existing : List (List Char)) (filename : List Char) :
    Nat → Nat → Option (List Char)
  | 0, _ => none
  | fuel + 1, n =>
    if candidateName filename n ∈ existing then
      findUniqueName existing filename fuel (n + 1)
    else
      some (candidateName filename n)

/-- The unique filename chosen by `save_attachment` for a folder whose
current contents are `existing`. -/
def unique_filename (existing : List (List Char)) (filename : List Char) :
    Option (List Char) :=
  findUniqueName existing filename (existing.length + 1) 0

/-- Model of `save_attachment` from `fetch_resumes.py`.  The folder is
the list of filenames currently on disk; `writeOk` says whether the
`open/write` of this payload succeeds (the `try` block) — on failure the
exception is caught and `False` is returned with the folder unchanged.
Returns the success flag together with the new folder contents. -/
def save_attachment (writeOk : Bool) (existing : List (List Char))
    (filename : List Char) : Bool × List (List Char) :=
  match unique_filename existing filename with
  | some u => if writeOk then (true, u :: existing) else (false, existing)
  | none => (false, existing)

/-- A non-multipart leaf part of a mail message, as `msg.walk()` yields
it: its `Content-Disposition` header (if any), its decoded filename (if
any), and whether writing its payload to disk would succeed. -/
structure EmailPart where
  is_multipart : Bool
  content_disposition : Option (List Char)
  filename : Option (List Char)
  write_ok : Bool

/-- An unread mail message: whether `imap.fetch` reports OK, whether the
message processes without raising (the per-message `try/except`), and its
parts. -/
structure EmailMsg where
  fetch_ok : Bool
  parse_ok : Bool
  parts : List EmailPart

/-- The mailbox as `fetch_resumes_from_gmail` observes it. -/
structure Mailbox where
  connect_ok : Bool
  search_ok : Bool
  unread : List EmailMsg

/-- Observable outcome of a `fetch_resumes_from_gmail` run: the Python
return value (every `return` in the function is bare, i.e. `None`), the
`resume_count` tally it prints, and the final folder contents. -/
structure FetchResult where
  retVal : Option Nat
  resume_count : Nat
  folder : List (List Char)
deriving DecidableEq

/-- One iteration of the `for part in msg.walk()` loop: skip multipart
containers, require an `attachment` disposition and a filename, check the
allow-list, then save; the saved-file count is incremented only when
`save_attachment` returns `True`.  The state is (folder contents, count). -/
def processPart (st : List (List Char) × Nat) (part : EmailPart) :
    List (List Char) × Nat :=
  if part.is_multipart then st
  else
    match part.content_disposition with
    | none => st
    | some disp =>
      if decide ("attachment".toList <:+: disp) then
        match part.filename with
        | none => st
        | some fname =>
          if is_resume_file fname then
            let r := save_attachment part.write_ok st.1 fname
            (r.2, if r.1 then st.2 + 1 else st.2)
          else st
      else st

/-- One iteration of the message loop: a failed `imap.fetch` is skipped
via `continue`, and a message whose processing raises is caught by the
per-message `except` and skipped. -/
def processMsg (st : List (List Char) × Nat) (msg : EmailMsg) :
    List (List Char) × Nat :=
  if msg.fetch_ok && msg.parse_ok then msg.parts.foldl processPart st else st

/-- Model of `fetch_resumes_from_gmail`.  Every `return` statement in the
Python function is a bare `return`, so the returned value is `none` on
every path; the printed summary count and the folder contents are carried
in the result so they can be observed.  Logging and the
`processed_emails` counter do not affect the result and are omitted. -/
def fetch_resumes_from_gmail (mb : Mailbox) (folder0 : List (List Char)) :
    FetchResult :=
  if !mb.connect_ok then ⟨none, 0, folder0⟩
  else if !mb.search_ok then ⟨none, 0, folder0⟩
  else if mb.unread.isEmpty then ⟨none, 0, folder0⟩
  else
    let st := mb.unread.foldl processMsg (folder0, 0)
    ⟨none, st.2, st.1⟩

example :
    save_attachment true ["resume.pdf".toList] "resume.pdf".toList
      = (true, ["resume_1.pdf".toList, "resume.pdf".toList]) := by decide

lemma pyLower_eq_dot_iff (c : Char) : pyLower c = '.' ↔ c = '.' := by
  constructor
  · intro h
    unfold pyLower at h
    split at h <;> simp_all
  · intro h
    subst h
    rfl

lemma dotIdxs_map_pyLower (l : List Char) :
    dotIdxs (l.map pyLower) = dotIdxs l := by
  unfold dotIdxs
  rw [List.length_map]
  apply List.filter_congr
  intro i _
  rw [List.getElem?_map]
  cases h : l[i]? with
  | none => simp
  | some c => simp [pyLower_eq_dot_iff]

lemma dotTest_map_pyLower (l : List Char) (j : Nat) :
    (!((l.map pyLower)[j]? == some '.')) = (!(l[j]? == some '.')) := by
  rw [List.getElem?_map]
  cases h : l[j]? with
  | none => simp
  | some c => simp [pyLower_eq_dot_iff]

lemma splitext_map_pyLower (l : List Char) :
    splitext (l.map pyLower) =
      ((splitext l).1.map pyLower, (splitext l).2.map pyLower) := by
  unfold splitext
  rw [dotIdxs_map_pyLower]
  have hfg : (fun j => !((l.map pyLower)[j]? == some '.'))
      = (fun j => !(l[j]? == some '.')) :=
    funext (dotTest_map_pyLower l)
  rw [hfg]
  cases h : (dotIdxs l).getLast? with
  | none => simp
  | some k =>
    dsimp only
    split <;> simp [List.map_take, List.map_drop]

/-- An HTTP response as `safe_post_request` observes it: the status code
and the raw body text (`response.text`). -/
structure HttpResponse where
  status : Nat
  body : String
deriving DecidableEq

/-- Exceptions that escape `safe_post_request`: `raise_for_status` on a
non-429 error status (the spec's `ServiceError`), or the final
`raise Exception("Failed after retries.")` (the spec's
`RetriesExhaustedError`). -/
inductive SvcError where
  | serviceError (status : Nat)
  | retriesExhausted
deriving DecidableEq

/-- Statuses for which requests `Response.raise_for_status` raises. -/
def isErrorStatus (s : Nat) : Bool := decide (400 ≤ s ∧ s < 600)

/-- Model of the `for i in range(retries)` loop of `safe_post_request`.
The transport is an environment `env` giving the response to the `i`-th
POST of this call.  The result pairs the trace of `time.sleep` durations
with either the returned response or the raised exception; on a 429 the
loop sleeps `2 ** i` seconds and retries, on any other error status it
raises at once, and when the loop ends it raises the retries-exhausted
exception. -/
def safe_post_request_loop (env : Nat → HttpResponse) :
    Nat → Nat → List Nat × Except SvcError HttpResponse
  | 0, _ => ([], .error .retriesExhausted)
  | fuel + 1, i =>
    let response := env i
    if response.status = 429 then
      let wait_time := 2 ^ i
      let r := safe_post_request_loop env fuel (i + 1)
      (wait_time :: r.1, r.2)
    else if isErrorStatus response.status then
      ([], .error (.serviceError response.status))
    else
      ([], .ok response)

/-- Model of `safe_post_request` from `parser.py` (default
`retries=3`). -/
def safe_post_request (env : Nat → HttpResponse) (retries : Nat := 3) :
    List Nat × Except SvcError HttpResponse :=
  safe_post_request_loop env retries 0

/-- The record shape requested from the completion service:
`{name, email, phone, skills, experience}`. -/
structure ResumeFields where
  name : String
  email : String
  phone : String
  skills : List String
  experience : List String
deriving DecidableEq

/-- Result of `extract_info` when the HTTP call returned: either the
parsed fields, or the degraded record
`{"error": str(e), "raw_response": response.text}` built in the
`except` branch. -/
inductive ExtractedInfo where
  | fields (f : ResumeFields)
  | degraded (error : String) (raw_response : String)
deriving DecidableEq

/-- Behavior of the completion service and of the two JSON decode stages
for one `extract_info` call.  `response i` is the reply to the `i`-th
POST attempt; `choicesContent r` models
`r.json()["choices"][0]["message"]["content"]` (`none` = some exception
during outer decode or indexing); `contentRecord reply` models
`json.loads(reply)` into the record shape (`none` = decode exception);
the `...ErrMsg` fields give the `str(e)` text of those exceptions. -/
structure CompletionService where
  response : Nat → HttpResponse
  choicesContent : HttpResponse → Option String
  contentRecord : String → Option ResumeFields
  outerErrMsg : HttpResponse → String
  innerErrMsg : String → String

/-- Model of `GroqResumeExtractor.extract_info`.  The prompt construction
and POST payload are I/O data absorbed into the service environment.  The
call sleeps 10 seconds unconditionally, then posts with the default retry
budget; only the two JSON decode stages are inside the `try`, so any
`SvcError` from `safe_post_request` propagates to the caller, while a
decode failure yields the degraded record. -/
def extract_info (svc : CompletionService) (resume_text : String) :
    List Nat × Except SvcError ExtractedInfo :=
  let r := safe_post_request svc.response 3
  (10 :: r.1,
    match r.2 with
    | .error e => .error e
    | .ok response =>
      .ok (match svc.choicesContent response with
        | none => .degraded (svc.outerErrMsg response) response.body
        | some reply =>
          match svc.contentRecord reply with
          | none => .degraded (svc.innerErrMsg reply) response.body
          | some f => .fields f))

/-- The embedding backend: `SentenceTransformer.encode` produces a dense
vector (modelled over `ℚ`) and `util.cos_sim(...).item()` scores a pair
of vectors. -/
structure RankerModel where
  encode : String → List ℚ
  cos_sim : List ℚ → List ℚ → ℚ

/-- Model of the `ResumeRanker` class: a job description plus the loaded
model. -/
structure ResumeRanker where
  job_desc : String
  model : RankerModel

/-- Model of `ResumeRanker.rank_resumes`: the job description is encoded
once, then each resume text is encoded and scored in input order. -/
def rank_resumes (r : ResumeRanker) (resume_texts : List String) : List ℚ :=
  let job_embedding := r.model.encode r.job_desc
  resume_texts.map
    (fun resume_text => r.model.cos_sim job_embedding (r.model.encode resume_text))

/-- Exceptions that escape `process_resumes`: a document-read failure
raised by the PyMuPDF walk in `extract_text_from_pdf`, or an uncaught
service exception from `extract_info`. -/
inductive PipelineError where
  | documentReadError (msg : String)
  | service (e : SvcError)
deriving DecidableEq

/-- Environment of one `process_resumes` run: the text extracted from
each path (or the exception raised there), the completion-service
behavior for each resume text, and the embedding backend. -/
structure PipelineEnv where
  read_text : List Char → Except String String
  service : String → CompletionService
  model : RankerModel

/-- Model of `GroqResumeExtractor.extract_text_from_pdf`: the PyMuPDF
page walk and the final `strip()` are external document I/O, so the text
obtained for a path — or the exception raised — is part of the
environment. -/
def extract_text_from_pdf (env : PipelineEnv) (pdf_path : List Char) :
    Except String String :=
  env.read_text pdf_path

/-- The per-file test of the `process_resumes` loop:
`filename.lower().endswith(".pdf")`. -/
def isPdfName (filename : List Char) : Bool :=
  ".pdf".toList.isSuffixOf (filename.map pyLower)

/-- One entry of `detailed_results` before ranking: filename, extracted
info, and the raw text kept for ranking. -/
structure ResumeDetail where
  file : List Char
  info : ExtractedInfo
  text : String
deriving DecidableEq

/-- One entry of the final output of `process_resumes`, after the raw
text is deleted and the score merged in. -/
structure ResumeRecord where
  file : List Char
  info : ExtractedInfo
  relevance_score : ℚ
deriving DecidableEq

/-- The `for filename in os.listdir(folder_path)` loop of
`process_resumes`: non-`.pdf` names are skipped; for a `.pdf` name the
text is extracted and `extract_info` called, either of which may raise
and abort the whole loop (there is no `try` around them). -/
def gatherDetails (env : PipelineEnv) :
    List (List Char) → Except PipelineError (List ResumeDetail)
  | [] => .ok []
  | filename :: rest =>
    if isPdfName filename then
      match extract_text_from_pdf env filename with
      | .error msg => .error (.documentReadError msg)
      | .ok text =>
        match (extract_info (env.service text) text).2 with
        | .error e => .error (.service e)
        | .ok info =>
          match gatherDetails env rest with
          | .error e => .error e
          | .ok tail => .ok (⟨filename, info, text⟩ :: tail)
    else gatherDetails env rest

/-- Model of Python `round(x, 4)` over `ℚ`: rounding at the fourth
decimal, computed on the reduced fraction as
`⌊x·10⁴ + 1/2⌋ / 10⁴` (tie-breaking at exact half-way points is
immaterial to every claim proved here, and no claim depends on the
rounding arithmetic itself). -/
def round4 (x : ℚ) : ℚ :=
  mkRat ((2 * x.num * 10000 + (x.den : Int)).ediv (2 * (x.den : Int))) 10000

/-- Decidable equality of `Except` results, for evaluating concrete
runs. -/
instance {ε α : Type} [DecidableEq ε] [DecidableEq α] :
    DecidableEq (Except ε α) := fun a b =>
  match a, b with
  | .ok x, .ok y => decidable_of_iff (x = y) (by simp)
  | .error x, .error y => decidable_of_iff (x = y) (by simp)
  | .ok _, .error _ => isFalse (by simp)
  | .error _, .ok _ => isFalse (by simp)

/-- The comparison realised by
`sorted(..., key=lambda x: x["relevance_score"], reverse=True)`: a
stable sort that puts higher scores first. -/
def scoreDesc (a b : ResumeRecord) : Bool :=
  decide (b.relevance_score ≤ a.relevance_score)

/-- Model of `process_resumes` from `parser.py`: gather
`detailed_results` over the folder listing, rank the retained texts in
one batched call, merge score `i` into record `i`, delete the raw text,
and return sorted descending by score. -/
def process_resumes (env : PipelineEnv) (folder : List (List Char))
    (job_description : String) : Except PipelineError (List ResumeRecord) :=
  let ranker : ResumeRanker := ⟨job_description, env.model⟩
  match gatherDetails env folder with
  | .error e => .error e
  | .ok detailed_results =>
    let scores := rank_resumes ranker (detailed_results.map (fun res => res.text))
    let merged := List.zipWith
      (fun res s => ResumeRecord.mk res.file res.info (round4 s))
      detailed_results scores
    .ok (merged.mergeSort scoreDesc)

lemma findUniqueName_not_mem (existing : List (List Char)) (filename : List Char) :
    ∀ fuel n u, findUniqueName existing filename fuel n = some u → u ∉ existing := by
  intro fuel
  induction fuel with
  | zero =>
    intro n u h
    simp [findUniqueName] at h
  | succ fuel ih =>
    intro n u h
    unfold findUniqueName at h
    by_cases hc : candidateName filename n ∈ existing
    · rw [if_pos hc] at h
      exact ih (n + 1) u h
    · rw [if_neg hc] at h
      simp only [Option.some.injEq] at h
      subst h
      exact hc

lemma findUniqueName_shape (existing : List (List Char)) (filename : List Char) :
    ∀ fuel n0 u, findUniqueName existing filename fuel n0 = some u →
      ∃ n, n0 ≤ n ∧ u = candidateName filename n ∧
        ∀ m, n0 ≤ m → m < n → candidateName filename m ∈ existing := by
  intro fuel
  induction fuel with
  | zero =>
    intro n0 u h
    simp [findUniqueName] at h
  | succ fuel ih =>
    intro n0 u h
    unfold findUniqueName at h
    by_cases hc : candidateName filename n0 ∈ existing
    · rw [if_pos hc] at h
      obtain ⟨n, hn1, hn2, hn3⟩ := ih (n0 + 1) u h
      refine ⟨n, le_trans (Nat.le_succ n0) hn1, hn2, ?_⟩
      intro m hm1 hm2
      rcases Nat.eq_or_lt_of_le hm1 with heq | hlt
      · exact heq ▸ hc
      · exact hn3 m hlt hm2
    · rw [if_neg hc] at h
      simp only [Option.some.injEq] at h
      exact ⟨n0, le_refl n0, h.symm, fun m hm1 hm2 => absurd (lt_of_le_of_lt hm1 hm2) (lt_irrefl n0)⟩

/-- C7: whenever `save_attachment`'s collision loop settles on a name, that
name is not already in the folder (nothing is overwritten), the name is a
`_<n>`-suffixed variant chosen only after every earlier candidate was found
taken, and saving three attachments named `resume.pdf` into an empty folder
yields `resume.pdf`, `resume_1.pdf`, `resume_2.pdf` — three distinct files. -/
theorem save_attachment_unique_naming :
    (∀ (existing : List (List Char)) (filename u : List Char),
        unique_filename existing filename = some u → u ∉ existing) ∧
    (∀ (existing : List (List Char)) (filename u : List Char),
        unique_filename existing filename = some u →
          ∃ n, u = candidateName filename n ∧
            ∀ m, m < n → candidateName filename m ∈ existing) ∧
    (save_attachment true [] "resume.pdf".toList
        = (true, ["resume.pdf".toList]) ∧
      save_attachment true ["resume.pdf".toList] "resume.pdf".toList
        = (true, ["resume_1.pdf".toList, "resume.pdf".toList]) ∧
      save_attachment true ["resume_1.pdf".toList, "resume.pdf".toList] "resume.pdf".toList
        = (true, ["resume_2.pdf".toList, "resume_1.pdf".toList, "resume.pdf".toList]) ∧
      List.Nodup ["resume.pdf".toList, "resume_1.pdf".toList, "resume_2.pdf".toList]) := by
  refine ⟨?_, ?_, by decide⟩
  · intro existing filename u h
    exact findUniqueName_not_mem existing filename _ 0 u h
  · intro existing filename u h
    obtain ⟨n, _, hn2, hn3⟩ := findUniqueName_shape existing filename _ 0 u h
    exact ⟨n, hn2, fun m hm => hn3 m (Nat.zero_le m) hm⟩

theorem save_attachment_unique_naming_witness :
    unique_filename ["resume.pdf".toList] "resume.pdf".toList
        = some "resume_1.pdf".toList ∧
      "resume_1.pdf".toList ∉ ["resume.pdf".toList] :=
  ⟨by decide, save_attachment_unique_naming.1 ["resume.pdf".toList]
    "resume.pdf".toList "resume_1.pdf".toList (by decide)⟩

lemma save_attachment_cases (writeOk : Bool) (existing : List (List Char))
    (filename : List Char) :
    save_attachment writeOk existing filename = (false, existing) ∨
      ∃ u, save_attachment writeOk existing filename = (true, u :: existing) := by
  unfold save_attachment
  cases h : unique_filename existing filename with
  | none => exact Or.inl rfl
  | some u =>
    cases writeOk with
    | false => exact Or.inl rfl
    | true => exact Or.inr ⟨u, rfl⟩

lemma processPart_step (st : List (List Char) × Nat) (part : EmailPart) :
    processPart st part = st ∨
      ∃ u, (processPart st part).1 = u :: st.1 ∧ (processPart st part).2 = st.2 + 1 := by
  unfold processPart
  by_cases h1 : part.is_multipart
  · rw [if_pos h1]; exact Or.inl rfl
  · rw [if_neg h1]
    cases h2 : part.content_disposition with
    | none => exact Or.inl rfl
    | some disp =>
      dsimp only
      by_cases h3 : ("attachment".toList <:+: disp)
      · rw [if_pos (by simpa using h3)]
        cases h4 : part.filename with
        | none => exact Or.inl rfl
        | some fname =>
          dsimp only
          by_cases h5 : is_resume_file fname
          · rw [if_pos h5]
            rcases save_attachment_cases part.write_ok st.1 fname with hs | ⟨u, hs⟩
            · rw [hs]; exact Or.inl rfl
            · rw [hs]; exact Or.inr ⟨u, rfl, rfl⟩
          · rw [if_neg h5]; exact Or.inl rfl
      · rw [if_neg (by simpa using h3)]; exact Or.inl rfl

lemma processPart_count (st : List (List Char) × Nat) (part : EmailPart) :
    (processPart st part).1.length + st.2 = st.1.length + (processPart st part).2 := by
  rcases processPart_step st part with h | ⟨u, h1, h2⟩
  · rw [h]
  · rw [h1, h2, List.length_cons]; omega

lemma foldl_processPart_count (parts : List EmailPart) :
    ∀ st : List (List Char) × Nat,
      (parts.foldl processPart st).1.length + st.2
        = st.1.length + (parts.foldl processPart st).2 := by
  induction parts with
  | nil => intro st; simp
  | cons p rest ih =>
    intro st
    have h1 := processPart_count st p
    have h2 := ih (processPart st p)
    simp only [List.foldl_cons]
    omega

lemma processMsg_count (st : List (List Char) × Nat) (msg : EmailMsg) :
    (processMsg st msg).1.length + st.2 = st.1.length + (processMsg st msg).2 := by
  unfold processMsg
  by_cases h : msg.fetch_ok && msg.parse_ok
  · rw [if_pos h]; exact foldl_processPart_count msg.parts st
  · rw [if_neg h]

lemma foldl_processMsg_count (msgs : List EmailMsg) :
    ∀ st : List (List Char) × Nat,
      (msgs.foldl processMsg st).1.length + st.2
        = st.1.length + (msgs.foldl processMsg st).2 := by
  induction msgs with
  | nil => intro st; simp
  | cons m rest ih =>
    intro st
    have h1 := processMsg_count st m
    have h2 := ih (processMsg st m)
    simp only [List.foldl_cons]
    omega

/-- C10: a failed disk write makes `save_attachment` return `False` with the
folder unchanged instead of propagating the exception; across a whole run
only saves that returned `True` are counted (`resume_count` equals the
number of files the run added to the folder); and concretely a message whose
first attachment fails to write still has its second attachment saved and
counted. -/
theorem save_attachment_failure_not_counted :
    (∀ (existing : List (List Char)) (filename : List Char),
        save_attachment false existing filename = (false, existing)) ∧
    (∀ (mb : Mailbox) (folder0 : List (List Char)),
        (fetch_resumes_from_gmail mb folder0).folder.length
          = folder0.length + (fetch_resumes_from_gmail mb folder0).resume_count) ∧
    (fetch_resumes_from_gmail
        ⟨true, true,
          [⟨true, true,
            [⟨false, some "attachment".toList, some "cv.pdf".toList, false⟩,
             ⟨false, some "attachment".toList, some "cv.pdf".toList, true⟩]⟩]⟩ []
      = ⟨none, 1, ["cv.pdf".toList]⟩) := by
  refine ⟨?_, ?_, by decide⟩
  · intro existing filename
    unfold save_attachment
    cases h : unique_filename existing filename with
    | none => rfl
    | some u => rfl
  · intro mb folder0
    unfold fetch_resumes_from_gmail
    by_cases h1 : mb.connect_ok
    · by_cases h2 : mb.search_ok
      · by_cases h3 : mb.unread.isEmpty
        · simp [h1, h2, h3]
        · have := foldl_processMsg_count mb.unread (folder0, 0)
          simp only [h1, h2, h3, Bool.not_true, Bool.false_eq_true, if_false,
            Bool.not_false, if_true] at this ⊢
          omega
      · simp [h1, h2]
    · simp [h1]

/-- C2 counterexample: with unread messages absent the Python function
executes a bare `return`, so the call evaluates to `None`, not to the count
`0` the claim promises. -/
theorem fetch_resumes_no_unread_counterexample :
    (fetch_resumes_from_gmail ⟨true, true, []⟩ []).retVal = none ∧
      (fetch_resumes_from_gmail ⟨true, true, []⟩ []).retVal ≠ some 0 := by
  decide

/-- C2 (amended): `fetch_resumes_from_gmail` tracks the count of saved
files internally but returns `None` on every path; in particular, with no
unread messages it raises nothing, saves nothing, and its count is `0`. -/
theorem fetch_resumes_returns_none (mb : Mailbox) (folder0 : List (List Char)) :
    (fetch_resumes_from_gmail mb folder0).retVal = none ∧
      (mb.unread = [] →
        (fetch_resumes_from_gmail mb folder0).resume_count = 0 ∧
        (fetch_resumes_from_gmail mb folder0).folder = folder0) := by
  constructor
  · unfold fetch_resumes_from_gmail
    by_cases h1 : mb.connect_ok <;> by_cases h2 : mb.search_ok <;>
      by_cases h3 : mb.unread.isEmpty <;> simp [h1, h2, h3]
  · intro h
    have h3 : mb.unread.isEmpty = true := by rw [h]; rfl
    unfold fetch_resumes_from_gmail
    by_cases h1 : mb.connect_ok <;> by_cases h2 : mb.search_ok <;>
      simp [h1, h2, h3]

theorem fetch_resumes_returns_none_witness :
    (fetch_resumes_from_gmail ⟨true, true, []⟩ []).resume_count = 0 ∧
      (fetch_resumes_from_gmail ⟨true, true, []⟩ []).folder = [] :=
  (fetch_resumes_returns_none ⟨true, true, []⟩ []).2 rfl

lemma safe_post_request_loop_zero (env : Nat → HttpResponse) (i : Nat) :
    safe_post_request_loop env 0 i = ([], .error .retriesExhausted) := rfl

lemma safe_post_request_loop_succ (env : Nat → HttpResponse) (fuel i : Nat) :
    safe_post_request_loop env (fuel + 1) i =
      if (env i).status = 429 then
        (2 ^ i :: (safe_post_request_loop env fuel (i + 1)).1,
          (safe_post_request_loop env fuel (i + 1)).2)
      else if isErrorStatus (env i).status then
        ([], .error (.serviceError (env i).status))
      else
        ([], .ok (env i)) := rfl

/-- C3: with the fixed budget `retries=3`, `safe_post_request` fails at once
with a service error on a non-429 error status (no retry, no wait), returns
the response at once on a success status, retries after a 429 with a
`2 ^ attempt`-second wait (so a 429 followed by a 200 sleeps `2 ^ 0 = 1`
second, retries exactly once and returns the 200 response), and after 429
on every attempt it has slept `1, 2, 4` seconds and raises the
retries-exhausted error. -/
theorem safe_post_request_retry_policy :
    (∀ env : Nat → HttpResponse, (env 0).status ≠ 429 →
        isErrorStatus (env 0).status = true →
        safe_post_request env 3 = ([], .error (.serviceError (env 0).status))) ∧
    (∀ env : Nat → HttpResponse, (env 0).status ≠ 429 →
        isErrorStatus (env 0).status = false →
        safe_post_request env 3 = ([], .ok (env 0))) ∧
    (∀ env : Nat → HttpResponse, (env 0).status = 429 →
        (env 1).status ≠ 429 → isErrorStatus (env 1).status = false →
        safe_post_request env 3 = ([1], .ok (env 1))) ∧
    (∀ env : Nat → HttpResponse, (env 0).status = 429 →
        (env 1).status = 429 → (env 2).status = 429 →
        safe_post_request env 3 = ([1, 2, 4], .error .retriesExhausted)) := by
  refine ⟨?_, ?_, ?_, ?_⟩
  · intro env h1 h2
    simp [safe_post_request, safe_post_request_loop_succ, h1, h2]
  · intro env h1 h2
    simp [safe_post_request, safe_post_request_loop_succ, h1, h2]
  · intro env h1 h2 h3
    simp [safe_post_request, safe_post_request_loop_succ, h1, h2, h3]
  · intro env h1 h2 h3
    simp [safe_post_request, safe_post_request_loop_succ,
      safe_post_request_loop_zero, h1, h2, h3]

theorem safe_post_request_retry_policy_witness :
    safe_post_request
        (fun i => if i = 0 then ⟨429, "limited"⟩ else ⟨200, "payload"⟩) 3
      = ([1], .ok ⟨200, "payload"⟩) := by
  have h := safe_post_request_retry_policy.2.2.1
    (fun i => if i = 0 then ⟨429, "limited"⟩ else ⟨200, "payload"⟩)
    rfl (by decide) rfl
  simpa using h

/-- C9: `extract_info` always sleeps the fixed 10-second cooldown first,
exactly once per document, before any POST attempt and regardless of
whether any failure occurs: its sleep trace is the cooldown followed by
exactly the retry backoffs of the HTTP call. -/
theorem extract_info_cooldown (svc : CompletionService) (resume_text : String) :
    (extract_info svc resume_text).1.head? = some 10 ∧
    (extract_info svc resume_text).1 = 10 :: (safe_post_request svc.response 3).1 :=
  ⟨rfl, rfl⟩

/-- Records as built by the merge loop of `process_resumes` before
sorting: record `i` carries the score of text `i`. -/
def mergedRecords (env : PipelineEnv) (job : String)
    (ds : List ResumeDetail) : List ResumeRecord :=
  ds.map (fun res => ResumeRecord.mk res.file res.info
    (round4 (env.model.cos_sim (env.model.encode job) (env.model.encode res.text))))

lemma gatherDetails_ok_spec (env : PipelineEnv) :
    ∀ (files : List (List Char)) (ds : List ResumeDetail),
      gatherDetails env files = .ok ds →
      ds.map (fun d => d.file) = files.filter (fun f => isPdfName f) ∧
      ∀ d ∈ ds, extract_text_from_pdf env d.file = .ok d.text ∧
        (extract_info (env.service d.text) d.text).2 = .ok d.info := by
  intro files
  induction files with
  | nil =>
    intro ds h
    simp only [gatherDetails, Except.ok.injEq] at h
    subst h
    simp
  | cons f rest ih =>
    intro ds h
    unfold gatherDetails at h
    by_cases hp : isPdfName f
    · rw [if_pos hp] at h
      cases hx : extract_text_from_pdf env f with
      | error msg => simp [hx] at h
      | ok text =>
        simp only [hx] at h
        cases hi : (extract_info (env.service text) text).2 with
        | error e => simp [hi] at h
        | ok info =>
          simp only [hi] at h
          cases hg : gatherDetails env rest with
          | error e => simp [hg] at h
          | ok tail =>
            simp only [hg, Except.ok.injEq] at h
            subst h
            obtain ⟨ih1, ih2⟩ := ih tail hg
            constructor
            · simp [List.filter_cons, hp, ih1]
            · intro d hd
              rcases List.mem_cons.mp hd with rfl | hd
              · exact ⟨hx, hi⟩
              · exact ih2 d hd
    · rw [if_neg hp] at h
      obtain ⟨ih1, ih2⟩ := ih ds h
      constructor
      · simp [List.filter_cons, hp, ih1]
      · exact ih2

/-- A document for which the `process_resumes` loop raises: the text
extraction raises, or the service call inside `extract_info` raises. -/
def documentFails (env : PipelineEnv) (f : List Char) : Prop :=
  (∃ msg, extract_text_from_pdf env f = .error msg) ∨
  (∃ text, extract_text_from_pdf env f = .ok text ∧
    ∃ e, (extract_info (env.service text) text).2 = .error e)

/-- A document the `process_resumes` loop gets through (possibly with a
degraded record). -/
def documentCompletes (env : PipelineEnv) (f : List Char) : Prop :=
  ∃ text info, extract_text_from_pdf env f = .ok text ∧
    (extract_info (env.service text) text).2 = .ok info

lemma gatherDetails_completes (env : PipelineEnv) :
    ∀ files : List (List Char),
      (∀ f ∈ files, isPdfName f = true → documentCompletes env f) →
      ∃ ds, gatherDetails env files = .ok ds := by
  intro files
  induction files with
  | nil => intro _; exact ⟨[], rfl⟩
  | cons f rest ih =>
    intro hall
    obtain ⟨ds, hds⟩ := ih (fun g hg hpdf => hall g (List.mem_cons_of_mem f hg) hpdf)
    by_cases hp : isPdfName f
    · obtain ⟨text, info, hx, hi⟩ := hall f (List.mem_cons_self f rest) hp
      refine ⟨⟨f, info, text⟩ :: ds, ?_⟩
      unfold gatherDetails
      rw [if_pos hp]
      simp only [hx, hi, hds]
    · refine ⟨ds, ?_⟩
      unfold gatherDetails
      rw [if_neg hp]
      exact hds

lemma gatherDetails_aborts (env : PipelineEnv) :
    ∀ files : List (List Char),
      (∃ f ∈ files, isPdfName f = true ∧ documentFails env f) →
      ∃ e, gatherDetails env files = .error e := by
  intro files
  induction files with
  | nil => intro h; simp at h
  | cons g rest ih =>
    intro h
    obtain ⟨f, hf, hpdf, hfail⟩ := h
    rcases List.mem_cons.mp hf with rfl | hf
    · unfold gatherDetails
      rw [if_pos hpdf]
      rcases hfail with ⟨msg, hx⟩ | ⟨text, hx, e, hi⟩
      · refine ⟨.documentReadError msg, ?_⟩
        simp only [hx]
      · refine ⟨.service e, ?_⟩
        simp only [hx, hi]
    · by_cases hp : isPdfName g
      · unfold gatherDetails
        rw [if_pos hp]
        cases hx : extract_text_from_pdf env g with
        | error msg => exact ⟨.documentReadError msg, by simp only [hx]⟩
        | ok text =>
          cases hi : (extract_info (env.service text) text).2 with
          | error e => exact ⟨.service e, by simp only [hx, hi]⟩
          | ok info =>
            obtain ⟨e, he⟩ := ih ⟨f, hf, hpdf, hfail⟩
            exact ⟨e, by simp only [hx, hi, he]⟩
      · unfold gatherDetails
        rw [if_neg hp]
        exact ih ⟨f, hf, hpdf, hfail⟩

lemma rank_resumes_merge_collapse (env : PipelineEnv) (job : String)
    (ds : List ResumeDetail) :
    List.zipWith (fun res s => ResumeRecord.mk res.file res.info (round4 s)) ds
        (rank_resumes ⟨job, env.model⟩ (ds.map (fun res => res.text)))
      = mergedRecords env job ds := by
  unfold rank_resumes mergedRecords
  rw [List.map_map, List.zipWith_map_right, List.zipWith_same]
  rfl

lemma process_resumes_ok_of_gather (env : PipelineEnv)
    (folder : List (List Char)) (job : String) (ds : List ResumeDetail) :
    gatherDetails env folder = .ok ds →
    process_resumes env folder job
      = .ok ((mergedRecords env job ds).mergeSort scoreDesc) := by
  intro h
  unfold process_resumes
  simp only [h, Except.ok.injEq]
  rw [← rank_resumes_merge_collapse env job ds]

lemma process_resumes_error_of_gather (env : PipelineEnv)
    (folder : List (List Char)) (job : String) (e : PipelineError) :
    gatherDetails env folder = .error e →
    process_resumes env folder job = .error e := by
  intro h
  unfold process_resumes
  simp only [h]

lemma process_resumes_ok_elim (env : PipelineEnv) (folder : List (List Char))
    (job : String) (records : List ResumeRecord) :
    process_resumes env folder job = .ok records →
    ∃ ds, gatherDetails env folder = .ok ds ∧
      records = (mergedRecords env job ds).mergeSort scoreDesc := by
  intro h
  cases hg : gatherDetails env folder with
  | error e =>
    rw [process_resumes_error_of_gather env folder job e hg] at h
    cases h
  | ok ds =>
    rw [process_resumes_ok_of_gather env folder job ds hg] at h
    simp only [Except.ok.injEq] at h
    exact ⟨ds, rfl, h.symm⟩

lemma process_resumes_record_source (env : PipelineEnv)
    (folder : List (List Char)) (job : String) (records : List ResumeRecord)
    (h : process_resumes env folder job = .ok records) :
    ∀ r ∈ records, ∃ text,
      extract_text_from_pdf env r.file = .ok text ∧
      (extract_info (env.service text) text).2 = .ok r.info ∧
      r.relevance_score
        = round4 (env.model.cos_sim (env.model.encode job) (env.model.encode text)) := by
  intro r hr
  obtain ⟨ds, hds, hrec⟩ := process_resumes_ok_elim env folder job records h
  obtain ⟨_, hsrc⟩ := gatherDetails_ok_spec env folder ds hds
  rw [hrec] at hr
  have hmem : r ∈ mergedRecords env job ds :=
    (List.mergeSort_perm (mergedRecords env job ds) scoreDesc).mem_iff.mp hr
  obtain ⟨d, hd, hrd⟩ := List.mem_map.mp hmem
  obtain ⟨hx, hi⟩ := hsrc d hd
  refine ⟨d.text, ?_, ?_, ?_⟩
  · rw [← hrd]; exact hx
  · rw [← hrd]; exact hi
  · rw [← hrd]

lemma scoreDesc_trans (a b c : ResumeRecord) :
    scoreDesc a b = true → scoreDesc b c = true → scoreDesc a c = true := by
  simp only [scoreDesc, decide_eq_true_eq]
  intro hab hbc
  exact le_trans hbc hab

lemma scoreDesc_total (a b : ResumeRecord) :
    (scoreDesc a b || scoreDesc b a) = true := by
  simp only [scoreDesc, Bool.or_eq_true, decide_eq_true_eq]
  exact (le_total a.relevance_score b.relevance_score).symm

/-- A set of extracted fields used for concrete runs. -/
def fieldsC : ResumeFields := ⟨"Ada", "ada@example.com", "1", [], []⟩

/-- A completion service that always answers 200 and parses cleanly. -/
def svcGood : CompletionService :=
  ⟨fun _ => ⟨200, "body"⟩, fun r => some r.body, fun _ => some fieldsC,
    fun _ => "outer", fun _ => "inner"⟩

/-- A completion service whose 200 reply is valid outer JSON but whose
inner content field fails to decode. -/
def svcBadJson : CompletionService :=
  ⟨fun _ => ⟨200, "rawbody"⟩, fun _ => some "notjson", fun _ => none,
    fun _ => "outer", fun _ => "Expecting value"⟩

/-- A ranker model whose score of a text is its length, for concrete
runs. -/
def modelC : RankerModel := ⟨fun s => [(s.length : ℚ)], fun _ v => v.headD 0⟩

/-- An environment whose documents all read cleanly (each file's text is
its own name) and whose service always parses. -/
def envGood : PipelineEnv := ⟨fun f => .ok (String.mk f), fun _ => svcGood, modelC⟩

/-- An environment whose service replies cannot be JSON-decoded. -/
def envBadJson : PipelineEnv := ⟨fun _ => .ok "txt", fun _ => svcBadJson, modelC⟩

/-- An environment in which every document read raises. -/
def envUnreadable : PipelineEnv :=
  ⟨fun _ => .error "cannot open document", fun _ => svcGood, modelC⟩

/-- C4: when the HTTP call returns a response, a failure of the outer JSON
decode or of the inner content-field decode does not raise — `extract_info`
returns a degraded record carrying an error message and the original
response body; and every record of a completed `process_resumes` run
carries a relevance score computed from its document's text. -/
theorem extract_info_degraded_record :
    (∀ (svc : CompletionService) (resume_text : String) (response : HttpResponse),
        (safe_post_request svc.response 3).2 = .ok response →
        (svc.choicesContent response = none ∨
          ∃ reply, svc.choicesContent response = some reply ∧
            svc.contentRecord reply = none) →
        ∃ msg, (extract_info svc resume_text).2 = .ok (.degraded msg response.body)) ∧
    (∀ (env : PipelineEnv) (folder : List (List Char)) (job : String)
        (records : List ResumeRecord),
        process_resumes env folder job = .ok records →
        ∀ r ∈ records, ∃ text,
          extract_text_from_pdf env r.file = .ok text ∧
          r.relevance_score
            = round4 (env.model.cos_sim (env.model.encode job) (env.model.encode text))) := by
  constructor
  · intro svc resume_text response hok hpar
    rcases hpar with hnone | ⟨reply, hr, hn⟩
    · exact ⟨svc.outerErrMsg response, by simp only [extract_info, hok, hnone]⟩
    · exact ⟨svc.innerErrMsg reply, by simp only [extract_info, hok, hr, hn]⟩
  · intro env folder job records h r hr
    obtain ⟨text, h1, _, h3⟩ :=
      process_resumes_record_source env folder job records h r hr
    exact ⟨text, h1, h3⟩

theorem extract_info_degraded_record_witness :
    (∃ msg, (extract_info svcBadJson "txt").2 = .ok (.degraded msg "rawbody")) ∧
    (∃ text,
      extract_text_from_pdf envBadJson "a.pdf".toList = .ok text ∧
      (ResumeRecord.mk "a.pdf".toList (.degraded "Expecting value" "rawbody") 3).relevance_score
        = round4 (envBadJson.model.cos_sim (envBadJson.model.encode "job")
            (envBadJson.model.encode text))) :=
  ⟨extract_info_degraded_record.1 svcBadJson "txt" ⟨200, "rawbody"⟩ rfl
      (Or.inr ⟨"notjson", rfl, rfl⟩),
    extract_info_degraded_record.2 envBadJson ["a.pdf".toList] "job"
      [⟨"a.pdf".toList, .degraded "Expecting value" "rawbody", 3⟩]
      (by
        rw [process_resumes_ok_of_gather envBadJson ["a.pdf".toList] "job"
          [⟨"a.pdf".toList, .degraded "Expecting value" "rawbody", "txt"⟩] (by decide)]
        simp only [List.mergeSort, mergedRecords, List.map]
        decide)
      ⟨"a.pdf".toList, .degraded "Expecting value" "rawbody", 3⟩ (by decide)⟩

/-- C5: whenever `process_resumes` returns, its records are exactly one per
file of the folder whose name ends in `.pdf` case-insensitively (names with
other extensions, including the other allow-listed formats, contribute
nothing), and the records come back sorted descending by relevance
score. -/
theorem process_resumes_pdf_filter_and_order (env : PipelineEnv)
    (folder : List (List Char)) (job : String) (records : List ResumeRecord)
    (h : process_resumes env folder job = .ok records) :
    (records.map (fun r => r.file)).Perm (folder.filter (fun f => isPdfName f)) ∧
    records.length = (folder.filter (fun f => isPdfName f)).length ∧
    List.Sorted (fun a b => b.relevance_score ≤ a.relevance_score) records ∧
    ∀ f : List Char, isPdfName f = false → f ∉ records.map (fun r => r.file) := by
  obtain ⟨ds, hds, hrec⟩ := process_resumes_ok_elim env folder job records h
  obtain ⟨hfiles, _⟩ := gatherDetails_ok_spec env folder ds hds
  have hmapfile : (mergedRecords env job ds).map (fun r => r.file)
      = ds.map (fun d => d.file) := by
    unfold mergedRecords
    rw [List.map_map]
    rfl
  have hperm : records.Perm (mergedRecords env job ds) := by
    rw [hrec]
    exact List.mergeSort_perm (mergedRecords env job ds) scoreDesc
  have hpermfile : (records.map (fun r => r.file)).Perm
      (folder.filter (fun f => isPdfName f)) := by
    have := hperm.map (fun r => r.file)
    rw [hmapfile, hfiles] at this
    exact this
  refine ⟨hpermfile, ?_, ?_, ?_⟩
  · have h1 := hperm.length_eq
    have h2 : (mergedRecords env job ds).length = ds.length := List.length_map _ _
    have h3 : (folder.filter (fun f => isPdfName f)).length = ds.length := by
      rw [← hfiles]
      exact List.length_map _ _
    omega
  · rw [hrec]
    exact (List.sorted_mergeSort scoreDesc_trans scoreDesc_total
      (mergedRecords env job ds)).imp (fun hab => of_decide_eq_true hab)
  · intro f hf hmem
    have hmem2 := hpermfile.mem_iff.mp hmem
    have := (List.mem_filter.mp hmem2).2
    rw [hf] at this
    cases this

theorem process_resumes_pdf_filter_and_order_witness :
    (([ResumeRecord.mk "resume2.pdf".toList (.fields fieldsC) 11,
        ResumeRecord.mk "a.PDF".toList (.fields fieldsC) 5].map (fun r => r.file)).Perm
      (["a.PDF".toList, "resume2.pdf".toList, "c.txt".toList].filter
        (fun f => isPdfName f))) ∧
    ([ResumeRecord.mk "resume2.pdf".toList (.fields fieldsC) 11,
        ResumeRecord.mk "a.PDF".toList (.fields fieldsC) 5].length
      = (["a.PDF".toList, "resume2.pdf".toList, "c.txt".toList].filter
          (fun f => isPdfName f)).length) ∧
    List.Sorted (fun a b => b.relevance_score ≤ a.relevance_score)
      [ResumeRecord.mk "resume2.pdf".toList (.fields fieldsC) 11,
        ResumeRecord.mk "a.PDF".toList (.fields fieldsC) 5] ∧
    (∀ f : List Char, isPdfName f = false →
      f ∉ [ResumeRecord.mk "resume2.pdf".toList (.fields fieldsC) 11,
        ResumeRecord.mk "a.PDF".toList (.fields fieldsC) 5].map (fun r => r.file)) :=
  process_resumes_pdf_filter_and_order envGood
    ["a.PDF".toList, "resume2.pdf".toList, "c.txt".toList] "job"
    [ResumeRecord.mk "resume2.pdf".toList (.fields fieldsC) 11,
      ResumeRecord.mk "a.PDF".toList (.fields fieldsC) 5]
    (by
      rw [process_resumes_ok_of_gather envGood
        ["a.PDF".toList, "resume2.pdf".toList, "c.txt".toList] "job"
        [⟨"a.PDF".toList, .fields fieldsC, String.mk "a.PDF".toList⟩,
         ⟨"resume2.pdf".toList, .fields fieldsC, String.mk "resume2.pdf".toList⟩] (by decide)]
      simp [List.mergeSort, List.merge, mergedRecords, envGood, modelC, scoreDesc]
      decide)

/-- C6: `rank_resumes` returns one score per input text, in input order
(score `i` is the cosine of the job embedding with text `i`'s embedding);
and in the merged output of `process_resumes` every record's score was
computed from exactly the text used for that record's field
extraction. -/
theorem rank_resumes_alignment :
    (∀ (r : ResumeRanker) (texts : List String),
        (rank_resumes r texts).length = texts.length ∧
        ∀ i : Nat, (rank_resumes r texts)[i]?
          = (texts[i]?).map (fun t =>
              r.model.cos_sim (r.model.encode r.job_desc) (r.model.encode t))) ∧
    (∀ (env : PipelineEnv) (folder : List (List Char)) (job : String)
        (records : List ResumeRecord),
        process_resumes env folder job = .ok records →
        ∀ r ∈ records, ∃ text,
          extract_text_from_pdf env r.file = .ok text ∧
          (extract_info (env.service text) text).2 = .ok r.info ∧
          r.relevance_score
            = round4 (env.model.cos_sim (env.model.encode job) (env.model.encode text))) := by
  constructor
  · intro r texts
    constructor
    · simp [rank_resumes]
    · intro i
      simp [rank_resumes, List.getElem?_map]
  · exact process_resumes_record_source

theorem rank_resumes_alignment_witness :
    ((rank_resumes ⟨"job", modelC⟩ ["t1", "longer"]).length = 2) ∧
    (∃ text,
      extract_text_from_pdf envBadJson "a.pdf".toList = .ok text ∧
      (extract_info (envBadJson.service text) text).2
        = .ok (ExtractedInfo.degraded "Expecting value" "rawbody") ∧
      ((3 : ℚ)
        = round4 (envBadJson.model.cos_sim (envBadJson.model.encode "job")
            (envBadJson.model.encode text)))) :=
  ⟨(rank_resumes_alignment.1 ⟨"job", modelC⟩ ["t1", "longer"]).1,
    rank_resumes_alignment.2 envBadJson ["a.pdf".toList] "job"
      [⟨"a.pdf".toList, .degraded "Expecting value" "rawbody", 3⟩]
      (by
        rw [process_resumes_ok_of_gather envBadJson ["a.pdf".toList] "job"
          [⟨"a.pdf".toList, .degraded "Expecting value" "rawbody", "txt"⟩] (by decide)]
        simp only [List.mergeSort, mergedRecords, List.map]
        decide)
      ⟨"a.pdf".toList, .degraded "Expecting value" "rawbody", 3⟩ (by decide)⟩

/-- C1 counterexample: a folder with a single unreadable document makes
`process_resumes` raise instead of returning a record for that document —
there is no `try` around `extract_text_from_pdf`, so the batch aborts. -/
theorem process_resumes_abort_counterexample :
    process_resumes envUnreadable ["a.pdf".toList] "job"
      = .error (.documentReadError "cannot open document") := by
  decide

/-- C1 (amended): the batch completes with one record per `.pdf` document
whenever every such document's text read and service call return (JSON
parse failures only degrade that document's record); but if any document's
read raises (`DocumentReadError`) or its service call raises
(`ServiceError` / `RetriesExhaustedError`), the exception propagates out of
`process_resumes` and the whole ranking request aborts. -/
theorem process_resumes_error_propagation :
    (∀ (env : PipelineEnv) (folder : List (List Char)) (job : String),
        (∀ f ∈ folder, isPdfName f = true → documentCompletes env f) →
        ∃ records, process_resumes env folder job = .ok records ∧
          records.length = (folder.filter (fun f => isPdfName f)).length) ∧
    (∀ (env : PipelineEnv) (folder : List (List Char)) (job : String),
        (∃ f ∈ folder, isPdfName f = true ∧ documentFails env f) →
        ∃ e, process_resumes env folder job = .error e) := by
  constructor
  · intro env folder job hall
    obtain ⟨ds, hds⟩ := gatherDetails_completes env folder hall
    refine ⟨(mergedRecords env job ds).mergeSort scoreDesc,
      process_resumes_ok_of_gather env folder job ds hds, ?_⟩
    obtain ⟨hfiles, _⟩ := gatherDetails_ok_spec env folder ds hds
    have h1 := (List.mergeSort_perm (mergedRecords env job ds) scoreDesc).length_eq
    have h2 : (mergedRecords env job ds).length = ds.length := List.length_map _ _
    have h3 : (folder.filter (fun f => isPdfName f)).length = ds.length := by
      rw [← hfiles]
      exact List.length_map _ _
    omega
  · intro env folder job hex
    obtain ⟨e, he⟩ := gatherDetails_aborts env folder hex
    exact ⟨e, process_resumes_error_of_gather env folder job e he⟩

theorem process_resumes_error_propagation_witness :
    (∃ records,
      process_resumes envGood ["a.PDF".toList, "c.txt".toList] "job" = .ok records ∧
      records.length
        = (["a.PDF".toList, "c.txt".toList].filter (fun f => isPdfName f)).length) ∧
    (∃ e, process_resumes envUnreadable ["a.pdf".toList] "job" = .error e) :=
  ⟨process_resumes_error_propagation.1 envGood ["a.PDF".toList, "c.txt".toList] "job"
      (by
        intro f hf hp
        rcases List.mem_cons.mp hf with rfl | hf2
        · exact ⟨String.mk "a.PDF".toList, .fields fieldsC, rfl, by decide⟩
        · rcases List.mem_cons.mp hf2 with rfl | hf3
          · exact absurd hp (by decide)
          · cases hf3),
    process_resumes_error_propagation.2 envUnreadable ["a.pdf".toList] "job"
      ⟨"a.pdf".toList, by decide, by decide,
        Or.inl ⟨"cannot open document", rfl⟩⟩⟩

/-- C8: `is_resume_file` accepts exactly the filenames whose extension,
compared case-insensitively, is one of `pdf, doc, docx, txt, rtf`; a
filename with any other extension, or with no extension at all, is
rejected. -/
theorem is_resume_file_allowlist (filename : List Char) :
    is_resume_file filename = true ↔
      ∃ e ∈ ["pdf".toList, "doc".toList, "docx".toList, "txt".toList, "rtf".toList],
        (splitext filename).2.map pyLower = '.' :: e := by
  unfold is_resume_file
  by_cases he : filename.isEmpty
  · have h0 : filename = [] := by
      cases filename with
      | nil => rfl
      | cons a l => cases he
    subst h0
    decide
  · rw [if_neg he, decide_eq_true_iff, splitext_map_pyLower]
    constructor
    · intro hx
      simp only [resume_extensions, List.mem_cons, List.not_mem_nil, or_false] at hx
      rcases hx with h | h | h | h | h
      · exact ⟨"pdf".toList, by decide, by rw [h]; decide⟩
      · exact ⟨"doc".toList, by decide, by rw [h]; decide⟩
      · exact ⟨"docx".toList, by decide, by rw [h]; decide⟩
      · exact ⟨"txt".toList, by decide, by rw [h]; decide⟩
      · exact ⟨"rtf".toList, by decide, by rw [h]; decide⟩
    · rintro ⟨e, he2, hx⟩
      dsimp only
      rw [hx]
      fin_cases he2 <;> decide

theorem is_resume_file_allowlist_witness :
    is_resume_file "Resume.PDF".toList = true ∧
      is_resume_file "archive.tar.gz".toList = false :=
  ⟨(is_resume_file_allowlist "Resume.PDF".toList).mpr
      ⟨"pdf".toList, by decide, by decide⟩,
    by
      have h := is_resume_file_allowlist "archive.tar.gz".toList
      rcases hb : is_resume_file "archive.tar.gz".toList with _ | _
      · rfl
      · obtain ⟨e, he2, hx⟩ := h.mp hb
        fin_cases he2 <;> simp_all <;> cases hx⟩
